import Mathlib

/-!
# Verification of the MeLi Faturamento Sync service (`src/main.py`)

A shallow embedding of the core pipeline of `main.py`:

* `loadTokenFromDb`      embeds `_load_token_from_db`
* `getAccessToken`       embeds `_get_access_token`
* `fetchPaidOrdersTotal` embeds `_fetch_paid_orders_total`
* `upsertFaturamento`    embeds `_upsert_faturamento`
* `syncAll`              embeds the per-account loop of `sync_all`

HTTP traffic is modelled by passing the server's responses in as data
(one `Page` per requested offset, one `TokenResponse` per account, one
status code per upsert).  Monetary values are modelled as exact rationals.
Python dictionary lookups with `.get` defaults and Python truthiness
(`x or y`, `if new_refresh:`) are embedded explicitly, since several
claims hinge on them.  Exceptions that the Python code can raise inside
an account's processing (e.g. `total_valor += None`) are modelled with
`Except String`; the broad `except` in `sync_all` catches them.
-/

namespace MeliSync

/-- A JSON numeric field of an order as seen through `dict.get`:
the key may be missing, hold JSON `null`, or hold a number. -/
inductive JVal where
  | missing
  | null
  | num (q : ℚ)
deriving DecidableEq, Repr

/-- The `tags` field of an order: missing key, JSON `null`, or an array. -/
inductive JTags where
  | missing
  | null
  | arr (l : List String)
deriving DecidableEq, Repr

/-- The `paging.total` field of a page: missing (either `paging` or
`total` absent), JSON `null`, or an integer. -/
inductive JInt where
  | missing
  | null
  | int (n : ℤ)
deriving DecidableEq, Repr

/-- A Python runtime value produced by `order.get(key, 0)`:
either `None` or a number. -/
inductive PyVal where
  | pyNone
  | pyNum (q : ℚ)
deriving DecidableEq, Repr

/-- `order.get(key, 0)`: a missing key yields the default `0`,
JSON `null` yields Python `None`, a number yields itself. -/
def JVal.getOr0 : JVal → PyVal
  | .missing => .pyNum 0
  | .null => .pyNone
  | .num q => .pyNum q

/-- Python truthiness of such a value: `None` and `0` are falsy. -/
def PyVal.truthy : PyVal → Bool
  | .pyNone => false
  | .pyNum q => decide (q ≠ 0)

/-- Python `a or b`. -/
def pyOr (a b : PyVal) : PyVal := if a.truthy then a else b

/-- Numeric reading of a Python value; `None` cannot be added to a float. -/
def PyVal.toNum : PyVal → Option ℚ
  | .pyNone => Option.none
  | .pyNum q => some q

/-- `order.get("tags") or []`: missing key and `null` both give `[]`. -/
def JTags.toList : JTags → List String
  | .missing => []
  | .null => []
  | .arr l => l

/-- An order as consumed by `_fetch_paid_orders_total`. -/
structure Order where
  tags : JTags
  paid_amount : JVal
  total_amount : JVal
deriving DecidableEq, Repr

/-- The tag that excludes an order from the revenue total. -/
def fraudMarker : String := "fraud_risk_detected"

/-- `order.get("paid_amount", 0) or order.get("total_amount", 0)`,
read as a number; `Option.none` marks the `TypeError` raised by
`total_valor += None`. -/
def orderContrib (o : Order) : Option ℚ :=
  (pyOr o.paid_amount.getOr0 o.total_amount.getOr0).toNum

/-- The mutable accumulators of `_fetch_paid_orders_total`. -/
structure AggState where
  totalValor : ℚ
  order_count : ℕ
  fraud_count : ℕ
deriving DecidableEq, Repr

/-- The `for order in data.get("results", [])` body: fraud-tagged orders
bump `fraud_count` and are skipped; the rest add their contribution and
bump `order_count`; adding `None` raises a `TypeError`. -/
def processOrders : List Order → AggState → Except String AggState
  | [], s => .ok s
  | o :: rest, s =>
    if fraudMarker ∈ o.tags.toList then
      processOrders rest { s with fraud_count := s.fraud_count + 1 }
    else
      match orderContrib o with
      | Option.none => .error "unsupported operand type for add: float and NoneType"
      | some q =>
        processOrders rest
          { s with totalValor := s.totalValor + q, order_count := s.order_count + 1 }

/-- One response of the orders-search endpoint. -/
structure Page where
  status : ℕ
  results : Option (List Order)
  pagingTotal : JInt
deriving Repr

/-- `data.get("results", [])`. -/
def pageResults (p : Page) : List Order := p.results.getD []

/-- `data.get("paging", {}).get("total", 0)`, read as an integer that
offsets can be compared against; `Option.none` marks the `TypeError`
raised by comparing an int with `None`. -/
def pagingTotalValue : JInt → Option ℤ
  | .missing => some 0
  | .null => Option.none
  | .int n => some n

/-- The `while True` pagination loop of `_fetch_paid_orders_total`,
with the server modelled as a map from requested offset to response.
The loop makes at most 11 requests (offsets 0, 50, …, 500), so it is
written on explicit fuel and `fetchPaidOrdersTotal` supplies fuel 11;
`fetchLoop_fuel_sufficient` proves the `Option.none` (out of fuel)
branch unreachable from the real entry point.  Besides the loop's
result it returns the list of offsets actually requested. -/
def fetchLoop (env : ℕ → Page) (fuel : ℕ) (offset : ℕ) (s : AggState) :
    Option ((Except String AggState) × List ℕ) :=
  match fuel with
  | 0 => Option.none
  | fuel + 1 =>
    let p := env offset
    if p.status ≠ 200 then some (.ok s, [offset])
    else
      match processOrders (pageResults p) s with
      | .error e => some (.error e, [offset])
      | .ok s' =>
        match pagingTotalValue p.pagingTotal with
        | Option.none =>
          some (.error "not supported between instances of int and NoneType", [offset])
        | some t =>
          if ((offset : ℤ) + 50 ≥ t) ∨ (offset + 50 > 500) then some (.ok s', [offset])
          else
            match fetchLoop env fuel (offset + 50) s' with
            | Option.none => Option.none
            | some (r, log) => some (r, offset :: log)

/-- Round half to even, as Python's `round` does on exact values. -/
def roundHalfEven (q : ℚ) : ℤ :=
  let f := q.floor
  if q - f < 1 / 2 then f
  else if q - f > 1 / 2 then f + 1
  else if f % 2 = 0 then f else f + 1

/-- Python `round(x, 2)` on exact values. -/
def round2 (q : ℚ) : ℚ := (roundHalfEven (q * 100) : ℚ) / 100

/-- The dictionary returned by `_fetch_paid_orders_total`. -/
structure FetchResult where
  valor : ℚ
  order_count : ℕ
  fraud_skipped : ℕ
deriving DecidableEq, Repr

/-- `_fetch_paid_orders_total`: run the pagination loop from offset 0
with fresh accumulators and package the result; also reports the
offsets requested.  An `Except.error` models an exception escaping to
`sync_all`'s `except` block. -/
def fetchPaidOrdersTotal (env : ℕ → Page) : (Except String FetchResult) × List ℕ :=
  match fetchLoop env 11 0 ⟨0, 0, 0⟩ with
  | Option.none => (.ok ⟨0, 0, 0⟩, [])
  | some (.error e, log) => (.error e, log)
  | some (.ok s, log) =>
    (.ok ⟨round2 s.totalValor, s.order_count, s.fraud_count⟩, log)

theorem fetchLoop_fuel_sufficient (env : ℕ → Page) :
    ∀ fuel offset s, 500 < offset + 50 * fuel → 0 < fuel →
      fetchLoop env fuel offset s ≠ Option.none := by
  intro fuel
  induction fuel with
  | zero => intro offset s _ h0; exact absurd h0 (by omega)
  | succ n ih =>
    intro offset s hbig _
    rw [fetchLoop]
    by_cases hst : (env offset).status ≠ 200
    · simp [hst]
    · simp only [hst, if_false]
      cases hpo : processOrders (pageResults (env offset)) s with
      | error e => simp
      | ok s' =>
        cases hpt : pagingTotalValue (env offset).pagingTotal with
        | none => simp
        | some t =>
          by_cases hstop : ((offset : ℤ) + 50 ≥ t) ∨ (offset + 50 > 500)
          · simp [hstop]
          · simp only [hstop, if_false]
            have hle : offset + 50 ≤ 500 := by
              rcases not_or.mp hstop with ⟨-, h2⟩; omega
            have hn : 0 < n := by omega
            have := ih (offset + 50) s' (by omega) hn
            cases hrec : fetchLoop env n (offset + 50) s' with
            | none => exact absurd hrec this
            | some v => cases v with | mk r log => simp

/-- One configured seller account (an entry of `ACCOUNTS`); its
`refresh_token` is the only field ever mutated. -/
structure Account where
  name : String
  empresa : String
  app_id : String
  secret_key : String
  refresh_token : String
  user_id : String
deriving DecidableEq, Repr

/-- The token-exchange endpoint's response as consumed by
`_get_access_token`: the HTTP status and the `access_token` /
`refresh_token` fields of the JSON body (missing and `null` both read
as `None` through `dict.get`). -/
structure TokenResponse where
  status : ℕ
  access_token : Option String
  refresh_token : Option String
deriving DecidableEq, Repr

/-- One call to `_save_token_to_db`, recording the arguments passed. -/
structure SaveCall where
  account_name : String
  refresh_token : String
  access_token : Option String
deriving DecidableEq, Repr

/-- What `_get_access_token` produces: the (possibly updated) account,
the list of `_save_token_to_db` calls it made, and its return value. -/
structure ExchangeResult where
  account : Account
  saves : List SaveCall
  access_token : Option String
deriving DecidableEq, Repr

/-- Python truthiness of an optional string: `None` and `""` are falsy. -/
def pyTruthyStr : Option String → Bool
  | Option.none => false
  | some s => decide (s ≠ "")

/-- `_get_access_token`: on a non-200 response return `None` without
touching anything; on 200, if the body carries a truthy new refresh
token, overwrite the in-memory one and save it (together with the
access token) before returning the access token. -/
def getAccessToken (account : Account) (res : TokenResponse) : ExchangeResult :=
  if res.status ≠ 200 then ⟨account, [], Option.none⟩
  else
    match res.refresh_token with
    | some s =>
      if s ≠ "" then
        ⟨{ account with refresh_token := s },
          [⟨account.name, s, res.access_token⟩], res.access_token⟩
      else ⟨account, [], res.access_token⟩
    | Option.none => ⟨account, [], res.access_token⟩

/-- One row of the `meli_tokens` table as returned by the select. -/
structure DbRow where
  refresh_token : Option String
deriving DecidableEq, Repr

/-- The credential store's response to the select in
`_load_token_from_db`. -/
structure LoadResponse where
  status : ℕ
  rows : List DbRow
deriving DecidableEq, Repr

/-- `_load_token_from_db`: on a 200 response whose first row has a
truthy `refresh_token`, return it; otherwise `None`.  The body of the
Python function issues a single GET and no writes, so the write trace
(second component) is always empty. -/
def loadTokenFromDb (res : LoadResponse) : Option String × List SaveCall :=
  if res.status = 200 then
    match res.rows with
    | [] => (Option.none, [])
    | row :: _ =>
      if pyTruthyStr row.refresh_token then (row.refresh_token, [])
      else (Option.none, [])
  else (Option.none, [])

/-- One call to `_upsert_faturamento`, recording the arguments passed. -/
structure UpsertCall where
  empresa : String
  data : String
  valor : ℚ
deriving DecidableEq, Repr

/-- `_upsert_faturamento`: POST the row; success is a 2xx status. -/
def upsertFaturamento (empresa data_str : String) (valor : ℚ) (status : ℕ) :
    Bool × UpsertCall :=
  (decide (200 ≤ status) && decide (status < 300), ⟨empresa, data_str, valor⟩)

/-- One entry of the `results` list built by `sync_all`.  Fields that a
given dict shape omits are `Option.none`. -/
structure Outcome where
  empresa : String
  date : String
  valor : Option ℚ
  orders : Option ℕ
  fraud_skipped : Option ℕ
  status : String
  error : Option String
deriving DecidableEq, Repr

/-- The external world's responses for one account within a run: the
token-exchange response, the orders-search pages (by offset) and the
upsert's status code. -/
structure AccountEnv where
  tokenRes : TokenResponse
  ordersEnv : ℕ → Page
  upsertStatus : ℕ

/-- What one iteration of `sync_all`'s account loop produces. -/
structure AccountResult where
  account : Account
  outcome : Outcome
  saves : List SaveCall
  upserts : List UpsertCall

/-- The body of `sync_all`'s per-account `try` block, `except` included:
exchange the token (falsy → `token_error`), aggregate (an exception is
caught into an `error` outcome carrying its string), and upsert only
when the value is strictly positive. -/
def processAccount (a : Account) (env : AccountEnv) (date_str : String) : AccountResult :=
  let ex := getAccessToken a env.tokenRes
  if pyTruthyStr ex.access_token = false then
    ⟨ex.account, ⟨a.empresa, date_str, Option.none, Option.none, Option.none,
      "token_error", Option.none⟩, ex.saves, []⟩
  else
    match (fetchPaidOrdersTotal env.ordersEnv).1 with
    | .error e =>
      ⟨ex.account, ⟨a.empresa, date_str, Option.none, Option.none, Option.none,
        "error", some e⟩, ex.saves, []⟩
    | .ok d =>
      if 0 < d.valor then
        let u := upsertFaturamento a.empresa date_str d.valor env.upsertStatus
        ⟨ex.account, ⟨a.empresa, date_str, some d.valor, some d.order_count,
          some d.fraud_skipped, if u.1 then "synced" else "upsert_error",
          Option.none⟩, ex.saves, [u.2]⟩
      else
        ⟨ex.account, ⟨a.empresa, date_str, some d.valor, some d.order_count,
          some d.fraud_skipped, "no_sales", Option.none⟩, ex.saves, []⟩

/-- The account loop of `sync_all`, accounts paired with their world
responses by position (`i` is the position of the next account). -/
def syncAllFrom (accounts : List Account) (envs : ℕ → AccountEnv)
    (date_str : String) (i : ℕ) : List Outcome :=
  match accounts with
  | [] => []
  | a :: rest => (processAccount a (envs i) date_str).outcome ::
      syncAllFrom rest envs date_str (i + 1)

/-- `sync_all`'s `results` list for one run. -/
def syncAll (accounts : List Account) (envs : ℕ → AccountEnv)
    (date_str : String) : List Outcome :=
  syncAllFrom accounts envs date_str 0

/-- Example account used to instantiate the orchestrator lemmas. -/
def wAccount1 : Account := ⟨"A1", "E1", "app1", "sec1", "r1", "11"⟩

/-- Second example account. -/
def wAccount2 : Account := ⟨"A2", "E2", "app2", "sec2", "r2", "22"⟩

/-- Example world where the token exchange fails. -/
def wEnvTokenFail : AccountEnv :=
  ⟨⟨500, Option.none, Option.none⟩, fun _ => ⟨404, Option.none, JInt.missing⟩, 201⟩

/-- Example world with one paid 10-unit order on a single page. -/
def wEnvSale : AccountEnv :=
  ⟨⟨200, some "tok", Option.none⟩,
    fun _ => ⟨200, some [⟨JTags.arr [], JVal.num 10, JVal.missing⟩], JInt.int 1⟩, 201⟩

/-- Example world with an empty order page (a zero-sales day). -/
def wEnvNoSale : AccountEnv :=
  ⟨⟨200, some "tok", Option.none⟩, fun _ => ⟨200, some [], JInt.int 0⟩, 201⟩

/-- Example world whose only order has null paid and total amounts, so
aggregation raises the `+= None` `TypeError`. -/
def wEnvBoom : AccountEnv :=
  ⟨⟨200, some "tok", Option.none⟩,
    fun _ => ⟨200, some [⟨JTags.arr [], JVal.null, JVal.null⟩], JInt.int 1⟩, 201⟩

/-- Example world whose order search always 404s. -/
def wEnvOk : AccountEnv :=
  ⟨⟨200, some "tok", Option.none⟩, fun _ => ⟨404, Option.none, JInt.missing⟩, 201⟩

/-- Example per-account world assignment: the first account hits the
`TypeError` world, the rest the 404-search world. -/
def wEnvs : ℕ → AccountEnv := fun i => if i = 0 then wEnvBoom else wEnvOk

/-- Whether some non-fraud order of a page would raise the `TypeError`
of `total_valor += None` (its `paid_amount` is falsy and its
`total_amount` is `null`). -/
def pageHasTypeError (l : List Order) : Bool :=
  l.any fun o => decide (fraudMarker ∉ o.tags.toList) && (orderContrib o).isNone

/-- Whether, after processing the page at `offset`, the pagination loop
requests the next page: the page was a 200, raised no exception, its
reported total is an integer, and the advanced offset is still below
both the reported total and the 500 ceiling. -/
def contAt (env : ℕ → Page) (offset : ℕ) : Bool :=
  decide ((env offset).status = 200) &&
  !pageHasTypeError (pageResults (env offset)) &&
  (match pagingTotalValue (env offset).pagingTotal with
   | Option.none => false
   | some t => decide ((offset : ℤ) + 50 < t) && decide (offset + 50 ≤ 500))

/-- Sequential processing of the order lists of several pages,
threading the accumulators; an exception aborts the rest. -/
def processPages : List (List Order) → AggState → Except String AggState
  | [], s => .ok s
  | l :: rest, s =>
    match processOrders l s with
    | .error e => .error e
    | .ok s' => processPages rest s'

/-! ## Helper lemmas -/

theorem ratFloor_eq_intFloor (a : ℚ) : a.floor = ⌊a⌋ := by
  rw [Rat.floor_def', Rat.floor_def]

theorem roundHalfEven_intCast (n : ℤ) : roundHalfEven (n : ℚ) = n := by
  unfold roundHalfEven
  rw [ratFloor_eq_intFloor, Int.floor_intCast]
  norm_num

theorem round2_intCast (n : ℤ) : round2 (n : ℚ) = n := by
  unfold round2
  have h : (n : ℚ) * 100 = ((n * 100 : ℤ) : ℚ) := by push_cast; ring
  rw [h, roundHalfEven_intCast]
  push_cast
  ring

theorem round2_natCast (n : ℕ) : round2 (n : ℚ) = n := by
  have h := round2_intCast (n : ℤ)
  push_cast at h
  exact h

theorem processOrders_ok_iff (l : List Order) :
    ∀ s, (∃ s', processOrders l s = .ok s') ↔ pageHasTypeError l = false := by
  induction l with
  | nil => intro s; simp [processOrders, pageHasTypeError]
  | cons o rest ih =>
    intro s
    by_cases hf : fraudMarker ∈ o.tags.toList
    · simp only [processOrders, if_pos hf, pageHasTypeError, List.any_cons]
      rw [show (pageHasTypeError rest = (rest.any fun o =>
          decide (fraudMarker ∉ o.tags.toList) && (orderContrib o).isNone)) from rfl] at ih
      simp [hf, ih]
    · cases hc : orderContrib o with
      | none =>
        simp only [processOrders, if_neg hf, hc, pageHasTypeError, List.any_cons]
        simp [hf, hc]
      | some q =>
        simp only [processOrders, if_neg hf, hc, pageHasTypeError, List.any_cons]
        rw [show (pageHasTypeError rest = (rest.any fun o =>
            decide (fraudMarker ∉ o.tags.toList) && (orderContrib o).isNone)) from rfl] at ih
        simp [hf, hc, ih]

theorem contAt_eq_true_iff (env : ℕ → Page) (offset : ℕ) :
    contAt env offset = true ↔
      (env offset).status = 200 ∧
      pageHasTypeError (pageResults (env offset)) = false ∧
      ∃ t, pagingTotalValue (env offset).pagingTotal = some t ∧
        (offset : ℤ) + 50 < t ∧ offset + 50 ≤ 500 := by
  unfold contAt
  cases hpt : pagingTotalValue (env offset).pagingTotal with
  | none => simp [hpt]
  | some t => simp [hpt, and_assoc]

theorem fetchPaidOrdersTotal_eq (env : ℕ → Page) :
    ∃ r log, fetchLoop env 11 0 ⟨0, 0, 0⟩ = some (r, log) ∧
      (fetchPaidOrdersTotal env).2 = log ∧
      (fetchPaidOrdersTotal env).1 = (match r with
        | .error e => .error e
        | .ok s => .ok ⟨round2 s.totalValor, s.order_count, s.fraud_count⟩) := by
  have h := fetchLoop_fuel_sufficient env 11 0 ⟨0, 0, 0⟩ (by norm_num) (by norm_num)
  cases hf : fetchLoop env 11 0 ⟨0, 0, 0⟩ with
  | none => exact absurd hf h
  | some v =>
    obtain ⟨r, log⟩ := v
    refine ⟨r, log, rfl, ?_, ?_⟩ <;> cases r <;> simp [fetchPaidOrdersTotal, hf]

theorem fetchLoop_log_spec (env : ℕ → Page) :
    ∀ fuel offset s r log, fetchLoop env fuel offset s = some (r, log) →
      ∃ k, log = List.range' offset (k + 1) 50 ∧
        (∀ j, j < k → contAt env (offset + 50 * j) = true) ∧
        contAt env (offset + 50 * k) = false := by
  intro fuel
  induction fuel with
  | zero => intro offset s r log h; simp [fetchLoop] at h
  | succ n ih =>
    intro offset s r log h
    simp only [fetchLoop] at h
    split at h
    · next hst =>
      injection h with h
      rw [Prod.mk.injEq] at h
      obtain ⟨rfl, rfl⟩ := h
      exact ⟨0, by simp [List.range'], fun j hj => absurd hj (Nat.not_lt_zero j),
        by simp [contAt, hst]⟩
    · next hst =>
      have hst' : (env offset).status = 200 := not_not.mp hst
      split at h
      · next e heq =>
        injection h with h
        rw [Prod.mk.injEq] at h
        obtain ⟨rfl, rfl⟩ := h
        have herr : pageHasTypeError (pageResults (env offset)) = true := by
          rcases Bool.eq_false_or_eq_true (pageHasTypeError (pageResults (env offset)))
            with h' | h'
          · exact h'
          · obtain ⟨s', hs'⟩ := (processOrders_ok_iff _ s).mpr h'
            rw [heq] at hs'
            exact absurd hs' (by simp)
        exact ⟨0, by simp [List.range'], fun j hj => absurd hj (Nat.not_lt_zero j),
          by simp [contAt, herr]⟩
      · next s' heq =>
        split at h
        · next hpt =>
          injection h with h
          rw [Prod.mk.injEq] at h
          obtain ⟨rfl, rfl⟩ := h
          exact ⟨0, by simp [List.range'], fun j hj => absurd hj (Nat.not_lt_zero j),
            by simp [contAt, hpt]⟩
        · next t hpt =>
          split at h
          · next hstop =>
            injection h with h
            rw [Prod.mk.injEq] at h
            obtain ⟨rfl, rfl⟩ := h
            refine ⟨0, by simp [List.range'], fun j hj => absurd hj (Nat.not_lt_zero j), ?_⟩
            rcases Bool.eq_false_or_eq_true (contAt env (offset + 50 * 0)) with h' | h'
            · exfalso
              rw [Nat.mul_zero, Nat.add_zero] at h'
              obtain ⟨-, -, t', hpt', hlt, hle⟩ := (contAt_eq_true_iff env offset).mp h'
              rw [hpt] at hpt'
              injection hpt' with ht'
              subst ht'
              rcases hstop with h1 | h1
              · omega
              · omega
            · exact h'
          · next hstop =>
            split at h
            · exact absurd h (by simp)
            · next r' log' heq2 =>
              injection h with h
              rw [Prod.mk.injEq] at h
              obtain ⟨rfl, rfl⟩ := h
              obtain ⟨k', hlog', hall', hlast'⟩ := ih (offset + 50) s' r' log' heq2
              push_neg at hstop
              obtain ⟨hlt, hle⟩ := hstop
              refine ⟨k' + 1, ?_, ?_, ?_⟩
              · rw [hlog']
                rfl
              · intro j hj
                cases j with
                | zero =>
                  rw [Nat.mul_zero, Nat.add_zero]
                  refine (contAt_eq_true_iff env offset).mpr
                    ⟨hst', ?_, t, hpt, by omega, by omega⟩
                  exact (processOrders_ok_iff _ s).mp ⟨s', heq⟩
                | succ j' =>
                  have e : offset + 50 * (j' + 1) = (offset + 50) + 50 * j' := by ring
                  rw [e]
                  exact hall' j' (by omega)
              · have e : offset + 50 * (k' + 1) = (offset + 50) + 50 * k' := by ring
                rw [e]
                exact hlast'

theorem fetchLoop_break_on_nonsuccess (env : ℕ → Page) :
    ∀ fuel offset s r log, fetchLoop env fuel offset s = some (r, log) →
      ∀ o, o ∈ log → (env o).status ≠ 200 →
      log.getLast? = some o ∧
      ∃ s', processPages (log.dropLast.map fun i => pageResults (env i)) s = .ok s' ∧
        r = Except.ok s' := by
  intro fuel
  induction fuel with
  | zero => intro offset s r log h; simp [fetchLoop] at h
  | succ n ih =>
    intro offset s r log h o ho hno
    simp only [fetchLoop] at h
    split at h
    · next hst =>
      injection h with h
      rw [Prod.mk.injEq] at h
      obtain ⟨rfl, rfl⟩ := h
      obtain rfl : o = offset := by simpa using ho
      exact ⟨by simp, s, by simp [processPages], rfl⟩
    · next hst =>
      have hst' : (env offset).status = 200 := not_not.mp hst
      split at h
      · next e heq =>
        injection h with h
        rw [Prod.mk.injEq] at h
        obtain ⟨rfl, rfl⟩ := h
        obtain rfl : o = offset := by simpa using ho
        exact absurd hst' hno
      · next s' heq =>
        split at h
        · next hpt =>
          injection h with h
          rw [Prod.mk.injEq] at h
          obtain ⟨rfl, rfl⟩ := h
          obtain rfl : o = offset := by simpa using ho
          exact absurd hst' hno
        · next t hpt =>
          split at h
          · next hstop =>
            injection h with h
            rw [Prod.mk.injEq] at h
            obtain ⟨rfl, rfl⟩ := h
            obtain rfl : o = offset := by simpa using ho
            exact absurd hst' hno
          · next hstop =>
            split at h
            · exact absurd h (by simp)
            · next r' log' heq2 =>
              injection h with h
              rw [Prod.mk.injEq] at h
              obtain ⟨rfl, rfl⟩ := h
              rcases List.mem_cons.mp ho with rfl | ho'
              · exact absurd hst' hno
              · obtain ⟨hlast', s'', hproc, rfl⟩ := ih (offset + 50) s' r' log' heq2 o ho' hno
                obtain ⟨x, xs, rfl⟩ : ∃ x xs, log' = x :: xs := by
                  cases log' with
                  | nil => simp at hlast'
                  | cons x xs => exact ⟨x, xs, rfl⟩
                refine ⟨by rw [List.getLast?_cons_cons]; exact hlast', s'', ?_, rfl⟩
                rw [List.dropLast_cons₂, List.map_cons]
                simpa [processPages, heq] using hproc

theorem fetchLoop_stop_step (env : ℕ → Page) (n offset : ℕ) (s s' : AggState) (t : ℤ)
    (h200 : (env offset).status = 200)
    (hpo : processOrders (pageResults (env offset)) s = .ok s')
    (hpt : pagingTotalValue (env offset).pagingTotal = some t)
    (hstop : ((offset : ℤ) + 50 ≥ t) ∨ (offset + 50 > 500)) :
    fetchLoop env (n + 1) offset s = some (.ok s', [offset]) := by
  simp only [fetchLoop, hpo, hpt]
  rw [if_neg (by simp [h200]), if_pos hstop]

theorem syncAllFrom_length (envs : ℕ → AccountEnv) (d : String) :
    ∀ accounts i, (syncAllFrom accounts envs d i).length = accounts.length := by
  intro accounts
  induction accounts with
  | nil => intro i; rfl
  | cons a rest ih =>
    intro i
    simp [syncAllFrom, ih]

theorem syncAllFrom_get (envs : ℕ → AccountEnv) (d : String) :
    ∀ accounts i j a, accounts[j]? = some a →
      (syncAllFrom accounts envs d i)[j]? =
        some (processAccount a (envs (i + j)) d).outcome := by
  intro accounts
  induction accounts with
  | nil =>
    intro i j a h
    simp at h
  | cons x rest ih =>
    intro i j a h
    cases j with
    | zero =>
      simp only [List.getElem?_cons_zero, Option.some.injEq] at h
      subst h
      simp [syncAllFrom]
    | succ j' =>
      simp only [List.getElem?_cons_succ] at h
      have hr := ih (i + 1) j' a h
      have e : i + 1 + j' = i + (j' + 1) := by omega
      rw [e] at hr
      simpa [syncAllFrom] using hr

/-! ## Claims -/

/-- Claim C1: when the token exchange receives an HTTP 200 response whose body
carries a fresh (non-empty) rotating credential, the account's in-memory
rotating credential is overwritten with the newly issued value (so it no
longer equals a distinct old value), exactly one save call persisting that
value is made to the credential store, and the access credential from the
body is returned — the save being an effect of the same call that produces
the return value, hence made before the caller sees the access credential. -/
theorem claim_C1 (a : Account) (res : TokenResponse) (s : String)
    (h200 : res.status = 200) (hs : res.refresh_token = some s) (hne : s ≠ "") :
    (getAccessToken a res).account.refresh_token = s ∧
    (getAccessToken a res).saves = [⟨a.name, s, res.access_token⟩] ∧
    (getAccessToken a res).access_token = res.access_token ∧
    (s ≠ a.refresh_token → (getAccessToken a res).account.refresh_token ≠ a.refresh_token) := by
  simp [getAccessToken, h200, hs, hne]

theorem claim_C1_witness :
    (getAccessToken ⟨"ACME", "Empresa", "app", "sec", "oldtok", "42"⟩
        ⟨200, some "acc", some "newtok"⟩).account.refresh_token = "newtok" ∧
    (getAccessToken ⟨"ACME", "Empresa", "app", "sec", "oldtok", "42"⟩
        ⟨200, some "acc", some "newtok"⟩).saves = [⟨"ACME", "newtok", some "acc"⟩] ∧
    (getAccessToken ⟨"ACME", "Empresa", "app", "sec", "oldtok", "42"⟩
        ⟨200, some "acc", some "newtok"⟩).access_token = some "acc" ∧
    (getAccessToken ⟨"ACME", "Empresa", "app", "sec", "oldtok", "42"⟩
        ⟨200, some "acc", some "newtok"⟩).account.refresh_token ≠ "oldtok" := by
  have h := claim_C1 ⟨"ACME", "Empresa", "app", "sec", "oldtok", "42"⟩
      ⟨200, some "acc", some "newtok"⟩ "newtok" rfl rfl (by decide)
  exact ⟨h.1, h.2.1, h.2.2.1, h.2.2.2 (by decide)⟩

/-- Claim C2 counterexample: an order whose `paid_amount` field is present
with value 0 (`total_amount` 30, no tags) contributes 30 — the total
amount — to the running total, not its paid amount 0: Python's
`or`-fallback also fires on a present-but-zero paid amount, refuting
"the fall-back ... happening only when the paid amount is absent". -/
theorem claim_C2_counterexample :
    processOrders [⟨JTags.arr [], JVal.num 0, JVal.num 30⟩] ⟨0, 0, 0⟩ =
      .ok ⟨30, 1, 0⟩ ∧ (30 : ℚ) ≠ 0 := by
  constructor
  · show processOrders _ _ = _
    norm_num [processOrders, orderContrib, JVal.getOr0, pyOr, PyVal.truthy,
      PyVal.toNum, JTags.toList, fraudMarker]
  · norm_num

/-- Claim C2, amended: a fraud-tagged order only bumps the excluded count;
otherwise the order's paid amount is added whenever it is present, non-null
and non-zero, and the fall-back to the total amount fires whenever the paid
amount is absent, null, or present with value 0 (Python falsiness) — with a
missing total amount contributing the default 0. -/
theorem claim_C2 (o : Order) (s : AggState) :
    (fraudMarker ∈ o.tags.toList →
      processOrders [o] s = .ok ⟨s.totalValor, s.order_count, s.fraud_count + 1⟩) ∧
    (fraudMarker ∉ o.tags.toList → ∀ q : ℚ, o.paid_amount = JVal.num q → q ≠ 0 →
      processOrders [o] s = .ok ⟨s.totalValor + q, s.order_count + 1, s.fraud_count⟩) ∧
    (fraudMarker ∉ o.tags.toList →
      (o.paid_amount = JVal.missing ∨ o.paid_amount = JVal.null ∨ o.paid_amount = JVal.num 0) →
      ∀ r : ℚ, o.total_amount = JVal.num r →
      processOrders [o] s = .ok ⟨s.totalValor + r, s.order_count + 1, s.fraud_count⟩) ∧
    (fraudMarker ∉ o.tags.toList →
      (o.paid_amount = JVal.missing ∨ o.paid_amount = JVal.null ∨ o.paid_amount = JVal.num 0) →
      o.total_amount = JVal.missing →
      processOrders [o] s = .ok ⟨s.totalValor + 0, s.order_count + 1, s.fraud_count⟩) := by
  refine ⟨?_, ?_, ?_, ?_⟩
  · intro hf
    simp [processOrders, hf]
  · intro hf q hq hq0
    simp [processOrders, hf, orderContrib, hq, JVal.getOr0, pyOr, PyVal.truthy,
      PyVal.toNum, hq0]
  · intro hf hp r hr
    rcases hp with hp | hp | hp <;>
      simp [processOrders, hf, orderContrib, hp, hr, JVal.getOr0, pyOr,
        PyVal.truthy, PyVal.toNum]
  · intro hf hp ht
    rcases hp with hp | hp | hp <;>
      simp [processOrders, hf, orderContrib, hp, ht, JVal.getOr0, pyOr,
        PyVal.truthy, PyVal.toNum]

theorem claim_C2_witness :
    processOrders [⟨JTags.arr ["fraud_risk_detected"], JVal.num 7, JVal.missing⟩]
      ⟨2, 3, 4⟩ = .ok ⟨2, 3, 4 + 1⟩ ∧
    processOrders [⟨JTags.arr [], JVal.num 7, JVal.missing⟩]
      ⟨2, 3, 4⟩ = .ok ⟨2 + 7, 3 + 1, 4⟩ ∧
    processOrders [⟨JTags.missing, JVal.null, JVal.num 30⟩]
      ⟨2, 3, 4⟩ = .ok ⟨2 + 30, 3 + 1, 4⟩ := by
  refine ⟨(claim_C2 _ _).1 (by decide), ?_, ?_⟩
  · exact (claim_C2 ⟨JTags.arr [], JVal.num 7, JVal.missing⟩ ⟨2, 3, 4⟩).2.1
      (by decide) 7 rfl (by norm_num)
  · exact (claim_C2 ⟨JTags.missing, JVal.null, JVal.num 30⟩ ⟨2, 3, 4⟩).2.2.1
      (by decide) (Or.inr (Or.inl rfl)) 30 rfl

/-- Claim C8: `_load_token_from_db` returns absent on a non-200 store
response, on an empty row set, and on a missing or empty stored rotating
credential; on a 200 response whose first row holds a non-empty credential it
returns that credential; and its write trace is empty in every case. -/
theorem claim_C8 (res : LoadResponse) :
    (res.status ≠ 200 → (loadTokenFromDb res).1 = Option.none) ∧
    (res.rows = [] → (loadTokenFromDb res).1 = Option.none) ∧
    (∀ row rest, res.rows = row :: rest →
      (row.refresh_token = Option.none ∨ row.refresh_token = some "") →
      (loadTokenFromDb res).1 = Option.none) ∧
    (∀ row rest s, res.status = 200 → res.rows = row :: rest →
      row.refresh_token = some s → s ≠ "" →
      (loadTokenFromDb res).1 = some s) ∧
    (loadTokenFromDb res).2 = [] := by
  refine ⟨?_, ?_, ?_, ?_, ?_⟩
  · intro h
    simp [loadTokenFromDb, h]
  · intro h
    by_cases h2 : res.status = 200 <;> simp [loadTokenFromDb, h, h2]
  · intro row rest hr hv
    by_cases h2 : res.status = 200
    · rcases hv with hv | hv <;> simp [loadTokenFromDb, h2, hr, pyTruthyStr, hv]
    · simp [loadTokenFromDb, h2]
  · intro row rest s h2 hr hv hne
    simp [loadTokenFromDb, h2, hr, pyTruthyStr, hv, hne]
  · by_cases h2 : res.status = 200
    · cases hr : res.rows with
      | nil => simp [loadTokenFromDb, h2, hr]
      | cons row rest =>
        by_cases ht : pyTruthyStr row.refresh_token <;>
          simp [loadTokenFromDb, h2, hr, ht]
    · simp [loadTokenFromDb, h2]

theorem claim_C8_witness :
    (loadTokenFromDb ⟨200, [⟨some "tok"⟩]⟩).1 = some "tok" ∧
    (loadTokenFromDb ⟨200, [⟨some "tok"⟩]⟩).2 = [] ∧
    (loadTokenFromDb ⟨500, [⟨some "tok"⟩]⟩).1 = Option.none ∧
    (loadTokenFromDb ⟨200, []⟩).1 = Option.none ∧
    (loadTokenFromDb ⟨200, [⟨some ""⟩]⟩).1 = Option.none := by
  refine ⟨(claim_C8 ⟨200, [⟨some "tok"⟩]⟩).2.2.2.1 ⟨some "tok"⟩ [] "tok" rfl rfl rfl
      (by decide),
    (claim_C8 ⟨200, [⟨some "tok"⟩]⟩).2.2.2.2,
    (claim_C8 ⟨500, [⟨some "tok"⟩]⟩).1 (by decide),
    (claim_C8 ⟨200, []⟩).2.1 rfl,
    (claim_C8 ⟨200, [⟨some ""⟩]⟩).2.2.1 ⟨some ""⟩ [] rfl (Or.inr rfl)⟩

/-- Claim C9: the token exchanger mutates the in-memory rotating credential
and emits a save only when the response is HTTP 200 with a truthy rotating
credential in the body; on a non-200 response everything is unchanged and no
access credential is returned; on a 200 response without a truthy rotating
credential everything is unchanged but the body's access credential is still
returned. -/
theorem claim_C9 (a : Account) (res : TokenResponse) :
    (res.status ≠ 200 → getAccessToken a res = ⟨a, [], Option.none⟩) ∧
    (res.status = 200 → pyTruthyStr res.refresh_token = false →
      getAccessToken a res = ⟨a, [], res.access_token⟩) ∧
    ((getAccessToken a res).account ≠ a ∨ (getAccessToken a res).saves ≠ [] →
      res.status = 200 ∧ pyTruthyStr res.refresh_token = true) := by
  refine ⟨?_, ?_, ?_⟩
  · intro h
    simp [getAccessToken, h]
  · intro h200 ht
    cases hr : res.refresh_token with
    | none => simp [getAccessToken, h200, hr]
    | some s =>
      have hs : s = "" := by
        by_contra hne
        simp [pyTruthyStr, hr, hne] at ht
      subst hs
      simp [getAccessToken, h200, hr]
  · intro h
    by_cases h200 : res.status = 200
    · cases hr : res.refresh_token with
      | none =>
        exfalso
        rcases h with h | h <;> simp [getAccessToken, h200, hr] at h
      | some s =>
        by_cases hne : s = ""
        · exfalso
          subst hne
          rcases h with h | h <;> simp [getAccessToken, h200, hr] at h
        · exact ⟨h200, by simp [pyTruthyStr, hr, hne]⟩
    · exfalso
      rcases h with h | h <;> simp [getAccessToken, h200] at h

theorem claim_C9_witness :
    getAccessToken ⟨"A", "E", "app", "sec", "old", "1"⟩ ⟨403, some "acc", some "new"⟩ =
      ⟨⟨"A", "E", "app", "sec", "old", "1"⟩, [], Option.none⟩ ∧
    getAccessToken ⟨"A", "E", "app", "sec", "old", "1"⟩ ⟨200, some "acc", Option.none⟩ =
      ⟨⟨"A", "E", "app", "sec", "old", "1"⟩, [], some "acc"⟩ := by
  exact ⟨(claim_C9 _ ⟨403, some "acc", some "new"⟩).1 (by decide),
    (claim_C9 ⟨"A", "E", "app", "sec", "old", "1"⟩ ⟨200, some "acc", Option.none⟩).2.1
      rfl (by decide)⟩

/-- Claim C3: the requested offsets form the arithmetic progression
0, 50, 100, … (`List.range' 0 (k+1) 50`): the offset advances by the page
size 50 after each page; the loop continues past a page exactly when
`contAt` holds — the page succeeded and the advanced offset is still
strictly below the server-reported total and at most 500 — so it stops
precisely at the first page where the advanced offset reaches the reported
total or exceeds 500 (or the page failed); the loop terminates (the fuel
bound is never hit), and every requested offset is at most 500 and a
multiple of 50, regardless of the reported total. -/
theorem claim_C3 (env : ℕ → Page) :
    (∃ v, fetchLoop env 11 0 ⟨0, 0, 0⟩ = some v) ∧
    ∃ k, (fetchPaidOrdersTotal env).2 = List.range' 0 (k + 1) 50 ∧
      (∀ j, j < k → contAt env (50 * j) = true) ∧
      contAt env (50 * k) = false ∧
      (∀ o ∈ (fetchPaidOrdersTotal env).2, o ≤ 500 ∧ 50 ∣ o) := by
  obtain ⟨r, log, hf, hlog, hres⟩ := fetchPaidOrdersTotal_eq env
  obtain ⟨k, hrange, hall, hlast⟩ := fetchLoop_log_spec env 11 0 ⟨0, 0, 0⟩ r log hf
  refine ⟨⟨(r, log), hf⟩, k, by rw [hlog, hrange], ?_, ?_, ?_⟩
  · intro j hj
    have h := hall j hj
    simpa using h
  · have h := hlast
    simpa using h
  · intro o ho
    rw [hlog, hrange] at ho
    obtain ⟨i, hik, rfl⟩ := List.mem_range'.mp ho
    refine ⟨?_, i, by ring⟩
    cases i with
    | zero => omega
    | succ i' =>
      have hc := hall i' (by omega)
      obtain ⟨-, -, t, -, -, hle⟩ := (contAt_eq_true_iff env (0 + 50 * i')).mp hc
      omega

theorem claim_C3_witness :
    (∃ v, fetchLoop (fun _ => ⟨404, Option.none, JInt.missing⟩) 11 0 ⟨0, 0, 0⟩ = some v) ∧
    ∃ k, (fetchPaidOrdersTotal (fun _ => ⟨404, Option.none, JInt.missing⟩)).2 =
        List.range' 0 (k + 1) 50 ∧
      (∀ j, j < k → contAt (fun _ => ⟨404, Option.none, JInt.missing⟩) (50 * j) = true) ∧
      contAt (fun _ => ⟨404, Option.none, JInt.missing⟩) (50 * k) = false ∧
      (∀ o ∈ (fetchPaidOrdersTotal (fun _ => ⟨404, Option.none, JInt.missing⟩)).2,
        o ≤ 500 ∧ 50 ∣ o) :=
  claim_C3 (fun _ => ⟨404, Option.none, JInt.missing⟩)

/-- Claim C6: aggregating the page
`[{paid=100, tags=[]}, {paid=50, tags=["fraud_risk_detected"]},
{total=30, paid=null}]` (reported total 3) yields value 130, two included
orders and one excluded order: the first order contributes its paid amount,
the fraud-tagged one is skipped, and the third falls back to its total
amount because its paid amount is null. -/
theorem claim_C6 :
    fetchPaidOrdersTotal (fun _ => ⟨200,
        some [⟨JTags.arr [], JVal.num 100, JVal.missing⟩,
              ⟨JTags.arr ["fraud_risk_detected"], JVal.num 50, JVal.missing⟩,
              ⟨JTags.missing, JVal.null, JVal.num 30⟩],
        JInt.int 3⟩) = (.ok ⟨130, 2, 1⟩, [0]) := by
  have h1 : fetchPaidOrdersTotal (fun _ => ⟨200,
      some [⟨JTags.arr [], JVal.num 100, JVal.missing⟩,
            ⟨JTags.arr ["fraud_risk_detected"], JVal.num 50, JVal.missing⟩,
            ⟨JTags.missing, JVal.null, JVal.num 30⟩],
      JInt.int 3⟩) = (.ok ⟨round2 (0 + 100 + 30), 2, 1⟩, [0]) := rfl
  rw [h1]
  have h2 : ((0 : ℚ) + 100 + 30) = ((130 : ℤ) : ℚ) := by norm_num
  rw [h2, round2_intCast]
  norm_num

/-- Claim C7: if a requested page comes back with a non-success status, that
request is the last one (pagination stops immediately), and the aggregator
returns an `ok` result — no error is raised to the caller — whose value and
counts are exactly the accumulation over the pages fetched before the
failing one (partial results are kept). -/
theorem claim_C7 (env : ℕ → Page) (o : ℕ)
    (ho : o ∈ (fetchPaidOrdersTotal env).2)
    (hst : (env o).status ≠ 200) :
    (fetchPaidOrdersTotal env).2.getLast? = some o ∧
    ∃ s : AggState,
      processPages ((fetchPaidOrdersTotal env).2.dropLast.map fun i => pageResults (env i))
        ⟨0, 0, 0⟩ = .ok s ∧
      (fetchPaidOrdersTotal env).1 =
        .ok ⟨round2 s.totalValor, s.order_count, s.fraud_count⟩ := by
  obtain ⟨r, log, hf, hlog, hres⟩ := fetchPaidOrdersTotal_eq env
  rw [hlog] at ho
  obtain ⟨hlast, s', hproc, rfl⟩ :=
    fetchLoop_break_on_nonsuccess env 11 0 ⟨0, 0, 0⟩ r log hf o ho hst
  rw [hlog]
  exact ⟨hlast, s', hproc, by rw [hres]⟩

theorem claim_C7_witness :
    ((fetchPaidOrdersTotal (fun _ => ⟨500, Option.none, JInt.missing⟩)).2.getLast? =
      some 0) ∧
    ∃ s : AggState,
      processPages ((fetchPaidOrdersTotal (fun _ => ⟨500, Option.none, JInt.missing⟩)).2.dropLast.map
        fun i => pageResults ((fun _ => (⟨500, Option.none, JInt.missing⟩ : Page)) i))
        ⟨0, 0, 0⟩ = .ok s ∧
      (fetchPaidOrdersTotal (fun _ => ⟨500, Option.none, JInt.missing⟩)).1 =
        .ok ⟨round2 s.totalValor, s.order_count, s.fraud_count⟩ :=
  claim_C7 (fun _ => ⟨500, Option.none, JInt.missing⟩) 0 (by decide) (by decide)

/-- Claim C10: malformed successful responses are tolerated: a page body
without a results array is processed as zero orders (no error, accumulators
unchanged); an order with a null or missing tag set behaves exactly as one
with an empty tag array; and a page without paging metadata reports total 0,
which ends pagination right after that page with an `ok` result. -/
theorem claim_C10 (st : ℕ) (tot : JInt) (o : Order) (rest : List Order) (s : AggState)
    (env : ℕ → Page) :
    (pageResults ⟨st, Option.none, tot⟩ = [] ∧
      processOrders (pageResults ⟨st, Option.none, tot⟩) s = .ok s) ∧
    ((o.tags = JTags.null ∨ o.tags = JTags.missing) →
      processOrders (o :: rest) s =
        processOrders (⟨JTags.arr [], o.paid_amount, o.total_amount⟩ :: rest) s) ∧
    ((env 0).status = 200 → (env 0).pagingTotal = JInt.missing →
      pageHasTypeError (pageResults (env 0)) = false →
      (fetchPaidOrdersTotal env).2 = [0] ∧
      ∃ d, (fetchPaidOrdersTotal env).1 = Except.ok d) := by
  refine ⟨⟨rfl, rfl⟩, ?_, ?_⟩
  · intro h
    rcases h with h | h <;>
      simp [processOrders, JTags.toList, h, orderContrib]
  · intro h200 hpt herr
    obtain ⟨s', hpo⟩ := (processOrders_ok_iff (pageResults (env 0)) ⟨0, 0, 0⟩).mpr herr
    have hstep : fetchLoop env 11 0 ⟨0, 0, 0⟩ = some (.ok s', [0]) :=
      fetchLoop_stop_step env 10 0 ⟨0, 0, 0⟩ s' 0 h200 hpo (by rw [hpt]; rfl)
        (Or.inl (by norm_num))
    constructor
    · simp [fetchPaidOrdersTotal, hstep]
    · refine ⟨⟨round2 s'.totalValor, s'.order_count, s'.fraud_count⟩, ?_⟩
      simp [fetchPaidOrdersTotal, hstep]

theorem claim_C10_witness :
    (pageResults ⟨200, Option.none, JInt.int 5⟩ = [] ∧
      processOrders (pageResults ⟨200, Option.none, JInt.int 5⟩) ⟨1, 2, 3⟩ =
        .ok ⟨1, 2, 3⟩) ∧
    (processOrders [⟨JTags.null, JVal.num 4, JVal.missing⟩] ⟨1, 2, 3⟩ =
      processOrders [⟨JTags.arr [], JVal.num 4, JVal.missing⟩] ⟨1, 2, 3⟩) ∧
    ((fetchPaidOrdersTotal (fun _ => ⟨200, some [], JInt.missing⟩)).2 = [0] ∧
      ∃ d, (fetchPaidOrdersTotal (fun _ => ⟨200, some [], JInt.missing⟩)).1 =
        Except.ok d) := by
  have h := claim_C10 200 (JInt.int 5) ⟨JTags.null, JVal.num 4, JVal.missing⟩ [] ⟨1, 2, 3⟩
    (fun _ => ⟨200, some [], JInt.missing⟩)
  exact ⟨h.1, h.2.1 (Or.inl rfl), h.2.2 rfl rfl (by decide)⟩

/-- Claim C4: per account, a falsy token-exchange result yields outcome
`token_error` with no upsert, and the rest of the processing is not
performed (the result does not depend on the orders environment or the
upsert response); with a token and an aggregation result, a strictly
positive value invokes exactly one reconcile upsert and yields `synced` or
`upsert_error` according to the upsert's boolean result, while a zero value
yields `no_sales` and never invokes the reconcile call. -/
theorem claim_C4 (a : Account) (env : AccountEnv) (d : String) :
    (pyTruthyStr (getAccessToken a env.tokenRes).access_token = false →
      (processAccount a env d).outcome.status = "token_error" ∧
      (processAccount a env d).upserts = [] ∧
      ∀ f u, processAccount a ⟨env.tokenRes, f, u⟩ d = processAccount a env d) ∧
    (pyTruthyStr (getAccessToken a env.tokenRes).access_token = true →
      ∀ dta, (fetchPaidOrdersTotal env.ordersEnv).1 = .ok dta →
        (0 < dta.valor →
          (processAccount a env d).upserts = [⟨a.empresa, d, dta.valor⟩] ∧
          (processAccount a env d).outcome.status =
            (if (upsertFaturamento a.empresa d dta.valor env.upsertStatus).1
              then "synced" else "upsert_error")) ∧
        (dta.valor = 0 →
          (processAccount a env d).outcome.status = "no_sales" ∧
          (processAccount a env d).upserts = [])) := by
  constructor
  · intro ht
    refine ⟨?_, ?_, ?_⟩
    · simp [processAccount, ht]
    · simp [processAccount, ht]
    · intro f u
      simp [processAccount, ht]
  · intro ht dta hfetch
    constructor
    · intro hv
      constructor
      · simp [processAccount, ht, hfetch, hv, upsertFaturamento]
      · simp [processAccount, ht, hfetch, hv, upsertFaturamento]
    · intro hv
      constructor
      · simp [processAccount, ht, hfetch, hv]
      · simp [processAccount, ht, hfetch, hv]

theorem claim_C4_witness :
    ((processAccount wAccount1 wEnvTokenFail "2026-10-12").outcome.status = "token_error" ∧
      (processAccount wAccount1 wEnvTokenFail "2026-10-12").upserts = [] ∧
      processAccount wAccount1 ⟨wEnvTokenFail.tokenRes, wEnvOk.ordersEnv, 0⟩ "2026-10-12" =
        processAccount wAccount1 wEnvTokenFail "2026-10-12") ∧
    ((processAccount wAccount1 wEnvSale "2026-10-12").upserts =
        [⟨wAccount1.empresa, "2026-10-12", 10⟩] ∧
      (processAccount wAccount1 wEnvSale "2026-10-12").outcome.status =
        (if (upsertFaturamento wAccount1.empresa "2026-10-12" 10 wEnvSale.upsertStatus).1
          then "synced" else "upsert_error")) ∧
    ((processAccount wAccount1 wEnvNoSale "2026-10-12").outcome.status = "no_sales" ∧
      (processAccount wAccount1 wEnvNoSale "2026-10-12").upserts = []) := by
  have h1 := (claim_C4 wAccount1 wEnvTokenFail "2026-10-12").1 (by decide)
  have hfS : (fetchPaidOrdersTotal wEnvSale.ordersEnv).1 = .ok ⟨10, 1, 0⟩ := by
    have h : (fetchPaidOrdersTotal wEnvSale.ordersEnv).1 =
        .ok ⟨round2 (0 + 10), 1, 0⟩ := rfl
    rw [h, show ((0 : ℚ) + 10) = ((10 : ℤ) : ℚ) by norm_num, round2_intCast]
    norm_num
  have h2 := ((claim_C4 wAccount1 wEnvSale "2026-10-12").2 (by decide) ⟨10, 1, 0⟩ hfS).1
    (by norm_num)
  have hfN : (fetchPaidOrdersTotal wEnvNoSale.ordersEnv).1 = .ok ⟨0, 0, 0⟩ := by
    have h : (fetchPaidOrdersTotal wEnvNoSale.ordersEnv).1 =
        .ok ⟨round2 0, 0, 0⟩ := rfl
    rw [h, show ((0 : ℚ)) = ((0 : ℤ) : ℚ) by norm_num, round2_intCast]
  have h3 := ((claim_C4 wAccount1 wEnvNoSale "2026-10-12").2 (by decide) ⟨0, 0, 0⟩ hfN).2 rfl
  exact ⟨⟨h1.1, h1.2.1, h1.2.2 wEnvOk.ordersEnv 0⟩, h2, h3⟩

/-- Claim C5: the run's outcome list has exactly one record per configured
account, in configuration order (entry `j` is the outcome of processing
account `j` against its own environment); and when an account's aggregation
raises an exception (while its token exchange succeeded), its entry is an
`error` outcome carrying the stringified reason — the surrounding entries
being untouched, so processing continues with the other accounts. -/
theorem claim_C5 (accounts : List Account) (envs : ℕ → AccountEnv) (d : String) :
    (syncAll accounts envs d).length = accounts.length ∧
    (∀ j a, accounts[j]? = some a →
      (syncAll accounts envs d)[j]? = some (processAccount a (envs j) d).outcome) ∧
    (∀ j a e, accounts[j]? = some a →
      pyTruthyStr (getAccessToken a (envs j).tokenRes).access_token = true →
      (fetchPaidOrdersTotal (envs j).ordersEnv).1 = .error e →
      (syncAll accounts envs d)[j]? = some ⟨a.empresa, d, Option.none, Option.none,
        Option.none, "error", some e⟩) := by
  refine ⟨syncAllFrom_length envs d accounts 0, ?_, ?_⟩
  · intro j a h
    have hg := syncAllFrom_get envs d accounts 0 j a h
    simpa [syncAll] using hg
  · intro j a e h ht herr
    have hg := syncAllFrom_get envs d accounts 0 j a h
    simp only [Nat.zero_add] at hg
    have hpa : (processAccount a (envs j) d).outcome =
        ⟨a.empresa, d, Option.none, Option.none, Option.none, "error", some e⟩ := by
      simp [processAccount, ht, herr]
    rw [syncAll, hg, hpa]

theorem claim_C5_witness :
    (syncAll [wAccount1, wAccount2] wEnvs "2026-10-12").length = 2 ∧
    (syncAll [wAccount1, wAccount2] wEnvs "2026-10-12")[0]? =
      some ⟨wAccount1.empresa, "2026-10-12", Option.none, Option.none, Option.none,
        "error", some "unsupported operand type for add: float and NoneType"⟩ ∧
    (syncAll [wAccount1, wAccount2] wEnvs "2026-10-12")[1]? =
      some (processAccount wAccount2 (wEnvs 1) "2026-10-12").outcome := by
  have h := claim_C5 [wAccount1, wAccount2] wEnvs "2026-10-12"
  refine ⟨h.1, ?_, h.2.1 1 wAccount2 rfl⟩
  exact h.2.2 0 wAccount1 "unsupported operand type for add: float and NoneType"
    rfl (by decide) rfl

end MeliSync
